import Mathlib

/-
Shallow embedding of the slashing-protection store of
`validator_client/slashing_protection` (files `proposer_slashings.rs`,
`slashing_protection.rs`, `main.rs`).

Conventions:
* u64 values (slots, epochs) are modelled as `Nat`; the only place where the
  64-bit representation matters is the SQLite layer, where values are stored
  as signed 64-bit integers — there the cast is modelled explicitly
  (`i64OfU64`).
* `Hash256` signing roots are opaque 32-byte values; they are modelled as
  `Nat` with decidable equality (only equality of roots is ever used).
* The SQLite database behind a `Connection` is modelled as the list of its
  rows in insertion order; `INSERT` with the unique index, and the `SELECT`
  used by `load_data`, are modelled explicitly.
* The crate `enums.rs` and `attester_slashings.rs` are not part of the
  source tree here; their items (`Safe`, `NotSafe`, `ValidData`,
  `check_for_attester_slashing`) are modelled from the spec, as marked.
-/

namespace SlashingProof

/-- A signed block proposal record (`SignedBlock` in `proposer_slashings.rs`):
a slot and the signing root of the block header. -/
structure SignedBlock where
  slot : Nat
  signing_root : Nat
deriving DecidableEq, Repr, Inhabited

/-- A signed attestation record (`SignedAttestation`, from the crate's missing
`attester_slashings.rs`; fields as used by `slashing_protection.rs`). -/
structure SignedAttestation where
  source_epoch : Nat
  target_epoch : Nat
  signing_root : Nat
deriving DecidableEq, Repr, Inhabited

/-- Modelled from the spec: the acceptance reasons of the rule engine
(`ValidData` in the missing `enums.rs`; `EmptyHistory`, `Valid`, `SameVote`
are the three reasons used by `proposer_slashings.rs` and `main.rs`). -/
inductive ValidData
  | EmptyHistory
  | Valid
  | SameVote
deriving DecidableEq, Repr

/-- Modelled from the spec: a positive verdict of the rule engine
(`Safe` in the missing `enums.rs`): the index at which to insert, and why. -/
structure Safe where
  insert_index : Nat
  reason : ValidData
deriving DecidableEq, Repr

/-- Slashable block verdicts (`InvalidBlock` in `proposer_slashings.rs`). -/
inductive InvalidBlock
  | BlockSlotTooEarly
  | DoubleBlockProposal
deriving DecidableEq, Repr

/-- Modelled from the spec: slashable attestation verdicts (`InvalidAttestation`
in the missing `attester_slashings.rs`; kinds named by the spec §4.1.2/§7). -/
inductive InvalidAttestation
  | DoubleVote
  | SurroundedVote
  | SurroundingVote
deriving DecidableEq, Repr

/-- SQLite-level errors surfaced by `rusqlite`: the unique-index violation is
the one failure representable in the pure model. -/
inductive SqlError
  | UniqueViolation
deriving DecidableEq, Repr

/-- Modelled from the spec: the negative verdicts (`NotSafe` in the missing
`enums.rs`), as used by `proposer_slashings.rs` (`PruningError`,
`InvalidBlock`) and by the `?` conversion from `rusqlite` errors. -/
inductive NotSafe
  | InvalidBlock (k : InvalidBlock)
  | InvalidAttestation (k : InvalidAttestation)
  | PruningError
  | SQLError (e : SqlError)
deriving DecidableEq, Repr

/-- The candidate for a block proposal (`BeaconBlockHeader`): the slashing
rules read only its slot and its hash (`canonical_root`), so the model keeps
exactly those. -/
structure BeaconBlockHeader where
  slot : Nat
  canonical_root : Nat
deriving DecidableEq, Repr

/-- The candidate for an attestation (`AttestationData`): the rules read its
source epoch, target epoch and hash (`tree_hash_root`). -/
structure AttestationData where
  source_epoch : Nat
  target_epoch : Nat
  tree_hash_root : Nat
deriving DecidableEq, Repr

/-- `SignedBlock::from(&BeaconBlockHeader)`. -/
def SignedBlock.ofHeader (h : BeaconBlockHeader) : SignedBlock :=
  ⟨h.slot, h.canonical_root⟩

/-- `SignedAttestation::from(&AttestationData)`. -/
def SignedAttestation.ofData (a : AttestationData) : SignedAttestation :=
  ⟨a.source_epoch, a.target_epoch, a.tree_hash_root⟩

/-- Greatest index of the list satisfying the predicate, searched from the
end: this is `iter().rev().position(p)` re-based by `len - 1 - pos`, as in
`check_for_proposer_slashing`. -/
def lastSatisfying {α : Type} (p : α → Bool) : List α → Option Nat
  | [] => none
  | a :: rest =>
    match lastSatisfying p rest with
    | some j => some (j + 1)
    | none => if p a then some 0 else none

/-- `check_for_proposer_slashing` from `proposer_slashings.rs`, line for
line: empty history accepts at 0; a slot above the last record appends; the
reverse scan finds the greatest index with slot ≤ candidate (`None` is
`PruningError`); equal slot compares signing roots, lower slot is
`BlockSlotTooEarly`. -/
def check_for_proposer_slashing (block_header : BeaconBlockHeader)
    (block_history : List SignedBlock) : Except NotSafe Safe :=
  if block_history.isEmpty then
    .ok ⟨0, .EmptyHistory⟩
  else if (block_history.getD (block_history.length - 1) default).slot <
      block_header.slot then
    .ok ⟨block_history.length, .Valid⟩
  else
    match lastSatisfying (fun b => decide (b.slot ≤ block_header.slot))
        block_history with
    | none => .error .PruningError
    | some index =>
      if (block_history.getD index default).slot = block_header.slot then
        if (block_history.getD index default).signing_root =
            block_header.canonical_root then
          .ok ⟨index, .SameVote⟩
        else
          .error (.InvalidBlock .DoubleBlockProposal)
      else
        .error (.InvalidBlock .BlockSlotTooEarly)

/-- Modelled from the spec: the five-step block proposer algorithm of
§4.1.1, word for word — in particular step 3 states the `PruningError`
condition as `candidate.slot < H[0].slot`. -/
def specProposerCheck (c : BeaconBlockHeader) (H : List SignedBlock) :
    Except NotSafe Safe :=
  if H.isEmpty then
    .ok ⟨0, .EmptyHistory⟩
  else if (H.getD (H.length - 1) default).slot < c.slot then
    .ok ⟨H.length, .Valid⟩
  else if c.slot < (H.headD default).slot then
    .error .PruningError
  else
    match lastSatisfying (fun b => decide (b.slot ≤ c.slot)) H with
    | none => .error .PruningError
    | some i =>
      if (H.getD i default).slot < c.slot then
        .error (.InvalidBlock .BlockSlotTooEarly)
      else if (H.getD i default).signing_root = c.canonical_root then
        .ok ⟨i, .SameVote⟩
      else
        .error (.InvalidBlock .DoubleBlockProposal)

/-- Modelled from the spec: `check_for_attester_slashing` of the missing
`attester_slashings.rs`, following §4.1.2 step by step: empty history
accepts with `EmptyHistory`; an identical (target, signing root) match is
idempotent (`SameVote` at that record's index); an equal target with a
different root is a `DoubleVote`; a record strictly surrounding the
candidate is a `SurroundedVote`; a record strictly surrounded by the
candidate is a `SurroundingVote`; otherwise accept with `Valid` at the
ascending insertion position by target epoch. -/
def check_for_attester_slashing (c : AttestationData)
    (H : List SignedAttestation) : Except NotSafe Safe :=
  if H.isEmpty then
    .ok ⟨0, .EmptyHistory⟩
  else
    match H.findIdx? (fun r =>
        decide (r.target_epoch = c.target_epoch) &&
        decide (r.signing_root = c.tree_hash_root)) with
    | some i => .ok ⟨i, .SameVote⟩
    | none =>
      if H.any (fun r =>
          decide (r.target_epoch = c.target_epoch) &&
          decide (¬ r.signing_root = c.tree_hash_root)) then
        .error (.InvalidAttestation .DoubleVote)
      else if H.any (fun r =>
          decide (r.source_epoch < c.source_epoch) &&
          decide (c.target_epoch < r.target_epoch)) then
        .error (.InvalidAttestation .SurroundedVote)
      else if H.any (fun r =>
          decide (c.source_epoch < r.source_epoch) &&
          decide (r.target_epoch < c.target_epoch)) then
        .error (.InvalidAttestation .SurroundingVote)
      else
        .ok ⟨(H.takeWhile (fun r =>
            decide (r.target_epoch < c.target_epoch))).length, .Valid⟩

/-- Signed 64-bit view of a u64 value, as stored by SQLite (`target as i64`,
`slot as i64` in the INSERT parameters): values at or above 2^63 wrap to
negative integers. -/
def i64OfU64 (n : Nat) : Int :=
  if n < 2 ^ 63 then (n : Int) else (n : Int) - 2 ^ 64

/-- `INSERT INTO signed_blocks (slot, signing_root) VALUES (?1, ?2)` under
the unique index `slot_index ON signed_blocks(slot)`: a duplicate slot is a
uniqueness violation, otherwise the row is appended to the table. -/
def dbInsertBlock (db : List SignedBlock) (r : SignedBlock) :
    Except SqlError (List SignedBlock) :=
  if db.any (fun x => decide (x.slot = r.slot)) then
    .error .UniqueViolation
  else
    .ok (db ++ [r])

/-- `INSERT INTO signed_attestations (target_epoch, source_epoch,
signing_root)` under the unique index `target_index ON
signed_attestations(target_epoch)`. -/
def dbInsertAttestation (db : List SignedAttestation)
    (r : SignedAttestation) : Except SqlError (List SignedAttestation) :=
  if db.any (fun x => decide (x.target_epoch = r.target_epoch)) then
    .error .UniqueViolation
  else
    .ok (db ++ [r])

/-- `LoadData<SignedBlock>::load_data`: the SQL is `select slot, signing_root
from signed_blocks where slot order by slot asc`. The stray `where slot`
keeps only rows whose stored (signed 64-bit) slot is truthy, i.e. non-zero;
the rows come back ordered by the signed value; the Rust code then re-sorts
ascending by the unsigned slot. Both sorts are stable (`Vec::sort_by` is
stable, and ties under the unique index are impossible), so the model uses
the stable `insertionSort`. -/
def load_data_blocks (db : List SignedBlock) : List SignedBlock :=
  ((db.filter (fun r => !(i64OfU64 r.slot == 0))).insertionSort
      (fun a b => i64OfU64 a.slot ≤ i64OfU64 b.slot)).insertionSort
    (fun a b => a.slot ≤ b.slot)

/-- `LoadData<SignedAttestation>::load_data`: `select target_epoch,
source_epoch, signing_root from signed_attestations order by target_epoch
asc` (no WHERE clause), then the Rust re-sort ascending by the unsigned
target epoch. -/
def load_data_attestations (db : List SignedAttestation) :
    List SignedAttestation :=
  (db.insertionSort (fun a b =>
      i64OfU64 a.target_epoch ≤ i64OfU64 b.target_epoch)).insertionSort
    (fun a b => a.target_epoch ≤ b.target_epoch)

/-- `HistoryInfo<SignedBlock>`: the database connection (modelled by the
rows of its `signed_blocks` table, in insertion order) and the in-memory
vector `data`. -/
structure BlockHistoryInfo where
  conn : List SignedBlock
  data : List SignedBlock
deriving DecidableEq, Repr

/-- `HistoryInfo<SignedAttestation>`. -/
structure AttestationHistoryInfo where
  conn : List SignedAttestation
  data : List SignedAttestation
deriving DecidableEq, Repr

/-- `HistoryInfo<SignedBlock>::check_slashing`. -/
def BlockHistoryInfo.check_slashing (s : BlockHistoryInfo)
    (incoming_data : BeaconBlockHeader) : Except NotSafe Safe :=
  check_for_proposer_slashing incoming_data s.data

/-- `HistoryInfo<SignedAttestation>::check_slashing`. -/
def AttestationHistoryInfo.check_slashing (s : AttestationHistoryInfo)
    (incoming_data : AttestationData) : Except NotSafe Safe :=
  check_for_attester_slashing incoming_data s.data

/-- `CheckAndInsert<SignedBlock>::insert`: one INSERT into the database —
the `?` operator propagates a SQL failure before memory is touched — then
the in-memory splice at `insert_index`. -/
def BlockHistoryInfo.insert (s : BlockHistoryInfo) (insert_index : Nat)
    (incoming_data : BeaconBlockHeader) : Except NotSafe BlockHistoryInfo :=
  match dbInsertBlock s.conn (SignedBlock.ofHeader incoming_data) with
  | .error e => .error (.SQLError e)
  | .ok conn2 =>
    .ok ⟨conn2,
      s.data.insertIdx insert_index (SignedBlock.ofHeader incoming_data)⟩

/-- `CheckAndInsert<SignedAttestation>::insert`. -/
def AttestationHistoryInfo.insert (s : AttestationHistoryInfo)
    (insert_index : Nat) (incoming_data : AttestationData) :
    Except NotSafe AttestationHistoryInfo :=
  match dbInsertAttestation s.conn (SignedAttestation.ofData incoming_data) with
  | .error e => .error (.SQLError e)
  | .ok conn2 =>
    .ok ⟨conn2,
      s.data.insertIdx insert_index (SignedAttestation.ofData incoming_data)⟩

/-- `SlashingProtection<SignedBlock>::update_if_valid`: run the rule check
on the in-memory history; `SameVote` returns `Ok(())` touching nothing;
other acceptances insert (database first, then memory); rejections and
storage failures are returned as errors with the store unchanged. The
result is the pair (returned value, store after the call). -/
def BlockHistoryInfo.update_if_valid (s : BlockHistoryInfo)
    (incoming_data : BeaconBlockHeader) :
    Except NotSafe Unit × BlockHistoryInfo :=
  match s.check_slashing incoming_data with
  | .ok safe =>
    match safe.reason with
    | .SameVote => (.ok (), s)
    | _ =>
      match s.insert safe.insert_index incoming_data with
      | .error e => (.error e, s)
      | .ok s2 => (.ok (), s2)
  | .error notsafe => (.error notsafe, s)

/-- `SlashingProtection<SignedAttestation>::update_if_valid`. -/
def AttestationHistoryInfo.update_if_valid (s : AttestationHistoryInfo)
    (incoming_data : AttestationData) :
    Except NotSafe Unit × AttestationHistoryInfo :=
  match s.check_slashing incoming_data with
  | .ok safe =>
    match safe.reason with
    | .SameVote => (.ok (), s)
    | _ =>
      match s.insert safe.insert_index incoming_data with
      | .error e => (.error e, s)
      | .ok s2 => (.ok (), s2)
  | .error notsafe => (.error notsafe, s)

/-- `SlashingProtection<SignedBlock>::empty` called on a path whose database
file already holds `rows`: the `CREATE TABLE IF NOT EXISTS` and `CREATE
UNIQUE INDEX IF NOT EXISTS` statements keep every existing row, and the
returned struct carries a fresh empty in-memory vector. -/
def BlockHistoryInfo.emptyOn (rows : List SignedBlock) : BlockHistoryInfo :=
  ⟨rows, []⟩

/-- `SlashingProtection<SignedAttestation>::empty` on a path already holding
`rows`. -/
def AttestationHistoryInfo.emptyOn (rows : List SignedAttestation) :
    AttestationHistoryInfo :=
  ⟨rows, []⟩

/-- `SlashingProtection<SignedBlock>::open`: the in-memory vector is
populated through `load_data`. -/
def BlockHistoryInfo.openStore (rows : List SignedBlock) : BlockHistoryInfo :=
  ⟨rows, load_data_blocks rows⟩

/-- `SlashingProtection<SignedAttestation>::open`. -/
def AttestationHistoryInfo.openStore (rows : List SignedAttestation) :
    AttestationHistoryInfo :=
  ⟨rows, load_data_attestations rows⟩

/-- A freshly initialized block store (`empty` at a path with no database). -/
def BlockHistoryInfo.fresh : BlockHistoryInfo :=
  ⟨[], []⟩

/-- A freshly initialized attestation store. -/
def AttestationHistoryInfo.fresh : AttestationHistoryInfo :=
  ⟨[], []⟩

/-- A sequence of `update_if_valid` calls on a fresh block store. -/
def BlockHistoryInfo.run (ops : List BeaconBlockHeader) : BlockHistoryInfo :=
  ops.foldl (fun s h => (s.update_if_valid h).2) .fresh

/-- A sequence of `update_if_valid` calls on a fresh attestation store. -/
def AttestationHistoryInfo.run (ops : List AttestationData) :
    AttestationHistoryInfo :=
  ops.foldl (fun s a => (s.update_if_valid a).2) .fresh

/-- Slashable rejection kinds (spec §7): the rule-engine conflicts, as
opposed to `PruningError` (unadjudicable) and storage errors. -/
def NotSafe.slashableKind : NotSafe → Bool
  | .InvalidBlock _ => true
  | .InvalidAttestation _ => true
  | .PruningError => false
  | .SQLError _ => false

/-- Conflict-freedom of an ordered pair of attestation records: strictly
increasing target epochs and neither record strictly surrounds the other. -/
def conflictFree (r s : SignedAttestation) : Prop :=
  r.target_epoch < s.target_epoch ∧
  ¬(r.source_epoch < s.source_epoch ∧ s.target_epoch < r.target_epoch) ∧
  ¬(s.source_epoch < r.source_epoch ∧ r.target_epoch < s.target_epoch)

instance : IsTotal SignedAttestation
    (fun a b : SignedAttestation => a.target_epoch ≤ b.target_epoch) :=
  ⟨fun a b => Nat.le_total a.target_epoch b.target_epoch⟩

instance : IsTrans SignedAttestation
    (fun a b : SignedAttestation => a.target_epoch ≤ b.target_epoch) :=
  ⟨fun _ _ _ => Nat.le_trans⟩

instance : IsTotal SignedBlock
    (fun a b : SignedBlock => a.slot ≤ b.slot) :=
  ⟨fun a b => Nat.le_total a.slot b.slot⟩

instance : IsTrans SignedBlock
    (fun a b : SignedBlock => a.slot ≤ b.slot) :=
  ⟨fun _ _ _ => Nat.le_trans⟩

theorem lastSatisfying_eq_none_iff {α : Type} (p : α → Bool) (l : List α) :
    lastSatisfying p l = none ↔ ∀ a ∈ l, p a = false := by
  induction l with
  | nil => simp [lastSatisfying]
  | cons a rest ih =>
    cases h : lastSatisfying p rest with
    | some j =>
      simp only [lastSatisfying, h]
      constructor
      · intro hc
        exact absurd hc (by simp)
      · intro hall
        have : ∀ a ∈ rest, p a = false := fun x hx => hall x (by simp [hx])
        rw [ih.mpr this] at h
        exact absurd h (by simp)
    | none =>
      simp only [lastSatisfying, h]
      cases hp : p a with
      | false =>
        simp only [hp, Bool.false_eq_true, if_false]
        simp only [List.mem_cons]
        constructor
        · intro _ x hx
          rcases hx with rfl | hx
          · exact hp
          · exact (ih.mp h) x hx
        · intro _
          trivial
      | true => simp [hp, ih.mp h]

theorem lastSatisfying_bounds {α : Type} [Inhabited α] (p : α → Bool)
    (l : List α) (i : Nat) (h : lastSatisfying p l = some i) :
    i < l.length ∧ p (l.getD i default) = true := by
  induction l generalizing i with
  | nil => simp [lastSatisfying] at h
  | cons a rest ih =>
    cases hr : lastSatisfying p rest with
    | some j =>
      simp only [lastSatisfying, hr] at h
      obtain rfl : j + 1 = i := by injection h
      obtain ⟨h1, h2⟩ := ih j hr
      refine ⟨by simpa using Nat.succ_lt_succ h1, ?_⟩
      simpa using h2
    | none =>
      simp only [lastSatisfying, hr] at h
      cases hp : p a with
      | false => simp [hp] at h
      | true =>
        simp only [hp, if_true] at h
        obtain rfl : (0 : Nat) = i := by injection h
        simp [hp]

/-- C1: for every candidate block and every block history sorted ascending
by slot, `check_for_proposer_slashing` returns exactly what the spec's
five-step algorithm (`specProposerCheck`) prescribes: Accept at 0 with
`EmptyHistory` on empty history, Accept at `len` with `Valid` above the last
slot, `PruningError` below the first slot, `BlockSlotTooEarly` when the
greatest record with slot ≤ candidate has a strictly smaller slot, and on an
equal slot `SameVote` at that index or `DoubleBlockProposal` according to
the signing roots. -/
theorem c1_proposer_check_follows_spec (c : BeaconBlockHeader)
    (H : List SignedBlock)
    (hs : List.Pairwise (fun a b : SignedBlock => a.slot ≤ b.slot) H) :
    check_for_proposer_slashing c H = specProposerCheck c H := by
  cases H with
  | nil => rfl
  | cons hd t =>
    unfold check_for_proposer_slashing specProposerCheck
    simp only [List.isEmpty_cons, Bool.false_eq_true, if_false]
    by_cases hLast : ((hd :: t).getD ((hd :: t).length - 1) default).slot <
        c.slot
    · rw [if_pos hLast, if_pos hLast]
    · rw [if_neg hLast, if_neg hLast]
      by_cases hHead : c.slot < ((hd :: t).headD default).slot
      · rw [if_pos hHead]
        have hnone :
            lastSatisfying (fun b => decide (b.slot ≤ c.slot)) (hd :: t) =
              none := by
          rw [lastSatisfying_eq_none_iff]
          intro a ha
          have h1 : hd.slot ≤ a.slot := by
            rcases List.mem_cons.mp ha with rfl | hmem
            · exact le_refl _
            · exact List.rel_of_pairwise_cons hs hmem
          have h2 : c.slot < hd.slot := by simpa using hHead
          simp only [decide_eq_false_iff_not]
          omega
        rw [hnone]
      · rw [if_neg hHead]
        cases hls : lastSatisfying (fun b => decide (b.slot ≤ c.slot))
            (hd :: t) with
        | none => rfl
        | some i =>
          obtain ⟨hib, hip⟩ := lastSatisfying_bounds _ (hd :: t) i hls
          dsimp only
          have hle : ((hd :: t).getD i default).slot ≤ c.slot := by
            simpa using hip
          by_cases heq : ((hd :: t).getD i default).slot = c.slot
          · rw [if_pos heq, heq]
            simp
          · rw [if_neg heq, if_pos (lt_of_le_of_ne hle heq)]

/-- C1 witness: on the concrete sorted history with slots 1 and 3 and a
candidate at slot 2, the source check and the spec algorithm agree. -/
theorem c1_witness :
    check_for_proposer_slashing ⟨2, 12⟩ [⟨1, 10⟩, ⟨3, 11⟩] =
      specProposerCheck ⟨2, 12⟩ [⟨1, 10⟩, ⟨3, 11⟩] :=
  c1_proposer_check_follows_spec ⟨2, 12⟩ [⟨1, 10⟩, ⟨3, 11⟩] (by decide)

/-- C2: the attester check accepts as `SameVote` when some record matches on
target epoch and signing root; with no such record, rejects as `DoubleVote`
when some record shares the target epoch with a different root; then rejects
as `SurroundedVote` when some record strictly surrounds the candidate, then
as `SurroundingVote` when the candidate strictly surrounds some record; and
accepts whenever no strict violation exists — the inequalities are strict,
so a record merely touching the candidate's bounds is never a violation,
and every candidate is adjudicated, including those with
`source_epoch ≥ target_epoch`. -/
theorem c2_attester_check_follows_rules (c : AttestationData)
    (H : List SignedAttestation) :
    ((∃ r ∈ H, r.target_epoch = c.target_epoch ∧
        r.signing_root = c.tree_hash_root) →
      ∃ i r, check_for_attester_slashing c H = .ok ⟨i, .SameVote⟩ ∧
        H[i]? = some r ∧ r.target_epoch = c.target_epoch ∧
        r.signing_root = c.tree_hash_root) ∧
    ((¬ ∃ r ∈ H, r.target_epoch = c.target_epoch ∧
        r.signing_root = c.tree_hash_root) →
      (∃ r ∈ H, r.target_epoch = c.target_epoch ∧
        r.signing_root ≠ c.tree_hash_root) →
      check_for_attester_slashing c H =
        .error (.InvalidAttestation .DoubleVote)) ∧
    ((¬ ∃ r ∈ H, r.target_epoch = c.target_epoch ∧
        r.signing_root = c.tree_hash_root) →
      (¬ ∃ r ∈ H, r.target_epoch = c.target_epoch ∧
        r.signing_root ≠ c.tree_hash_root) →
      (∃ r ∈ H, r.source_epoch < c.source_epoch ∧
        c.target_epoch < r.target_epoch) →
      check_for_attester_slashing c H =
        .error (.InvalidAttestation .SurroundedVote)) ∧
    ((¬ ∃ r ∈ H, r.target_epoch = c.target_epoch ∧
        r.signing_root = c.tree_hash_root) →
      (¬ ∃ r ∈ H, r.target_epoch = c.target_epoch ∧
        r.signing_root ≠ c.tree_hash_root) →
      (¬ ∃ r ∈ H, r.source_epoch < c.source_epoch ∧
        c.target_epoch < r.target_epoch) →
      (∃ r ∈ H, c.source_epoch < r.source_epoch ∧
        r.target_epoch < c.target_epoch) →
      check_for_attester_slashing c H =
        .error (.InvalidAttestation .SurroundingVote)) ∧
    ((¬ ∃ r ∈ H, r.target_epoch = c.target_epoch ∧
        r.signing_root ≠ c.tree_hash_root) →
      (¬ ∃ r ∈ H, r.source_epoch < c.source_epoch ∧
        c.target_epoch < r.target_epoch) →
      (¬ ∃ r ∈ H, c.source_epoch < r.source_epoch ∧
        r.target_epoch < c.target_epoch) →
      ∃ s, check_for_attester_slashing c H = .ok s) := by
  refine ⟨?_, ?_, ?_, ?_, ?_⟩
  · intro hex
    have hne : H.isEmpty = false := by
      cases H with
      | nil => obtain ⟨r, hr, _⟩ := hex; simp at hr
      | cons a t => simp
    obtain ⟨r0, hr0, h1, h2⟩ := hex
    have hexB : ∃ x ∈ H, (fun r : SignedAttestation =>
        decide (r.target_epoch = c.target_epoch) &&
        decide (r.signing_root = c.tree_hash_root)) x = true :=
      ⟨r0, hr0, by simp [h1, h2]⟩
    have hfi := List.findIdx?_eq_some_of_exists hexB
    have hlt := List.findIdx_lt_length_of_exists hexB
    unfold check_for_attester_slashing
    rw [hne]
    simp only [Bool.false_eq_true, if_false, hfi]
    refine ⟨_, H.get ⟨List.findIdx (fun r : SignedAttestation =>
        decide (r.target_epoch = c.target_epoch) &&
        decide (r.signing_root = c.tree_hash_root)) H, hlt⟩, rfl,
      ?_, ?_⟩
    · rw [List.getElem?_eq_getElem hlt]
      simp
    · have := @List.findIdx_getElem _ (fun r : SignedAttestation =>
        decide (r.target_epoch = c.target_epoch) &&
        decide (r.signing_root = c.tree_hash_root)) H hlt
      simpa using this
  · intro hnid hdouble
    have hne : H.isEmpty = false := by
      cases H with
      | nil => obtain ⟨r, hr, _⟩ := hdouble; simp at hr
      | cons a t => simp
    have hfi : H.findIdx? (fun r : SignedAttestation =>
        decide (r.target_epoch = c.target_epoch) &&
        decide (r.signing_root = c.tree_hash_root)) = none := by
      rw [List.findIdx?_eq_none_iff]
      intro x hx
      simp only [Bool.and_eq_false_iff, decide_eq_false_iff_not]
      by_contra hcon
      push_neg at hcon
      exact hnid ⟨x, hx, hcon.1, hcon.2⟩
    have hdB : H.any (fun r : SignedAttestation =>
        decide (r.target_epoch = c.target_epoch) &&
        decide (¬ r.signing_root = c.tree_hash_root)) = true := by
      rw [List.any_eq_true]
      obtain ⟨r, hr, h1, h2⟩ := hdouble
      exact ⟨r, hr, by simp [h1, h2]⟩
    unfold check_for_attester_slashing
    rw [hne]
    simp only [Bool.false_eq_true, if_false, hfi, hdB, if_true]
  · intro hnid hndouble hsur
    have hne : H.isEmpty = false := by
      cases H with
      | nil => obtain ⟨r, hr, _⟩ := hsur; simp at hr
      | cons a t => simp
    have hfi : H.findIdx? (fun r : SignedAttestation =>
        decide (r.target_epoch = c.target_epoch) &&
        decide (r.signing_root = c.tree_hash_root)) = none := by
      rw [List.findIdx?_eq_none_iff]
      intro x hx
      simp only [Bool.and_eq_false_iff, decide_eq_false_iff_not]
      by_contra hcon
      push_neg at hcon
      exact hnid ⟨x, hx, hcon.1, hcon.2⟩
    have hdB : H.any (fun r : SignedAttestation =>
        decide (r.target_epoch = c.target_epoch) &&
        decide (¬ r.signing_root = c.tree_hash_root)) = false := by
      rw [← Bool.not_eq_true, List.any_eq_true]
      intro ⟨r, hr, hp⟩
      simp only [Bool.and_eq_true, decide_eq_true_eq] at hp
      exact hndouble ⟨r, hr, hp.1, hp.2⟩
    have hsB : H.any (fun r : SignedAttestation =>
        decide (r.source_epoch < c.source_epoch) &&
        decide (c.target_epoch < r.target_epoch)) = true := by
      rw [List.any_eq_true]
      obtain ⟨r, hr, h1, h2⟩ := hsur
      exact ⟨r, hr, by simp [h1, h2]⟩
    unfold check_for_attester_slashing
    rw [hne]
    simp only [Bool.false_eq_true, if_false, hfi, hdB, hsB, if_true]
  · intro hnid hndouble hnsur hsurr
    have hne : H.isEmpty = false := by
      cases H with
      | nil => obtain ⟨r, hr, _⟩ := hsurr; simp at hr
      | cons a t => simp
    have hfi : H.findIdx? (fun r : SignedAttestation =>
        decide (r.target_epoch = c.target_epoch) &&
        decide (r.signing_root = c.tree_hash_root)) = none := by
      rw [List.findIdx?_eq_none_iff]
      intro x hx
      simp only [Bool.and_eq_false_iff, decide_eq_false_iff_not]
      by_contra hcon
      push_neg at hcon
      exact hnid ⟨x, hx, hcon.1, hcon.2⟩
    have hdB : H.any (fun r : SignedAttestation =>
        decide (r.target_epoch = c.target_epoch) &&
        decide (¬ r.signing_root = c.tree_hash_root)) = false := by
      rw [← Bool.not_eq_true, List.any_eq_true]
      intro ⟨r, hr, hp⟩
      simp only [Bool.and_eq_true, decide_eq_true_eq] at hp
      exact hndouble ⟨r, hr, hp.1, hp.2⟩
    have hsB : H.any (fun r : SignedAttestation =>
        decide (r.source_epoch < c.source_epoch) &&
        decide (c.target_epoch < r.target_epoch)) = false := by
      rw [← Bool.not_eq_true, List.any_eq_true]
      intro ⟨r, hr, hp⟩
      simp only [Bool.and_eq_true, decide_eq_true_eq] at hp
      exact hnsur ⟨r, hr, hp.1, hp.2⟩
    have hs2B : H.any (fun r : SignedAttestation =>
        decide (c.source_epoch < r.source_epoch) &&
        decide (r.target_epoch < c.target_epoch)) = true := by
      rw [List.any_eq_true]
      obtain ⟨r, hr, h1, h2⟩ := hsurr
      exact ⟨r, hr, by simp [h1, h2]⟩
    unfold check_for_attester_slashing
    rw [hne]
    simp only [Bool.false_eq_true, if_false, hfi, hdB, hsB, hs2B, if_true]
  · intro hndouble hnsur hnsurr
    cases hE : H.isEmpty with
    | true =>
      refine ⟨⟨0, .EmptyHistory⟩, ?_⟩
      unfold check_for_attester_slashing
      rw [hE]
      rfl
    | false =>
      cases hfi : H.findIdx? (fun r : SignedAttestation =>
          decide (r.target_epoch = c.target_epoch) &&
          decide (r.signing_root = c.tree_hash_root)) with
      | some i =>
        refine ⟨⟨i, .SameVote⟩, ?_⟩
        unfold check_for_attester_slashing
        rw [hE]
        simp only [Bool.false_eq_true, if_false, hfi]
      | none =>
        have hdB : H.any (fun r : SignedAttestation =>
            decide (r.target_epoch = c.target_epoch) &&
            decide (¬ r.signing_root = c.tree_hash_root)) = false := by
          rw [← Bool.not_eq_true, List.any_eq_true]
          intro ⟨r, hr, hp⟩
          simp only [Bool.and_eq_true, decide_eq_true_eq] at hp
          exact hndouble ⟨r, hr, hp.1, hp.2⟩
        have hsB : H.any (fun r : SignedAttestation =>
            decide (r.source_epoch < c.source_epoch) &&
            decide (c.target_epoch < r.target_epoch)) = false := by
          rw [← Bool.not_eq_true, List.any_eq_true]
          intro ⟨r, hr, hp⟩
          simp only [Bool.and_eq_true, decide_eq_true_eq] at hp
          exact hnsur ⟨r, hr, hp.1, hp.2⟩
        have hs2B : H.any (fun r : SignedAttestation =>
            decide (c.source_epoch < r.source_epoch) &&
            decide (r.target_epoch < c.target_epoch)) = false := by
          rw [← Bool.not_eq_true, List.any_eq_true]
          intro ⟨r, hr, hp⟩
          simp only [Bool.and_eq_true, decide_eq_true_eq] at hp
          exact hnsurr ⟨r, hr, hp.1, hp.2⟩
        refine ⟨⟨(H.takeWhile (fun r : SignedAttestation =>
          decide (r.target_epoch < c.target_epoch))).length, .Valid⟩, ?_⟩
        unfold check_for_attester_slashing
        rw [hE]
        simp only [Bool.false_eq_true, if_false, hfi, hdB, hsB, hs2B]

/-- C2 witness: a candidate with `source_epoch > target_epoch` is still
adjudicated (and accepted when nothing conflicts), and the spec's scenario
A1 double vote is rejected as `DoubleVote`. -/
theorem c2_witness :
    (∃ s, check_for_attester_slashing ⟨9, 4, 7⟩ [⟨1, 2, 3⟩] = .ok s) ∧
      check_for_attester_slashing ⟨3, 5, 2⟩ [⟨2, 5, 1⟩] =
        .error (.InvalidAttestation .DoubleVote) :=
  ⟨(c2_attester_check_follows_rules ⟨9, 4, 7⟩ [⟨1, 2, 3⟩]).2.2.2.2
      (by decide) (by decide) (by decide),
    (c2_attester_check_follows_rules ⟨3, 5, 2⟩ [⟨2, 5, 1⟩]).2.1
      (by decide) (by decide)⟩

/-- C3: evaluation at the failing input. A block at slot 0 submitted to a
fresh store is accepted: it lands in the in-memory history and in the
database table. But reloading the table (as `open` does) yields an empty
history: the stray `where slot` in the block SELECT drops slot-0 rows, so
the in-memory History Index and the file contents on reopen differ, against
spec P1. -/
theorem c3_slot_zero_breaks_memory_disk_agreement :
    (BlockHistoryInfo.run [⟨0, 5⟩]).data = [⟨0, 5⟩] ∧
    (BlockHistoryInfo.run [⟨0, 5⟩]).conn = [⟨0, 5⟩] ∧
    load_data_blocks (BlockHistoryInfo.run [⟨0, 5⟩]).conn = [] ∧
    (BlockHistoryInfo.openStore (BlockHistoryInfo.run [⟨0, 5⟩]).conn).data ≠
      (BlockHistoryInfo.run [⟨0, 5⟩]).data := by
  refine ⟨rfl, rfl, rfl, ?_⟩
  decide

/-- C10: the critical section in `main.rs` is split — `check_for_slashing`
releases the mutex before `update_and_write` re-acquires it — so two
threads submitting conflicting blocks can both run the rule check against
the same stale empty history. Both checks accept, although the second
candidate conflicts with the first one's record once it is inserted: the
interleaving check A, check B, insert A, insert B records both. -/
theorem c10_split_critical_section_admits_conflicting_accepts :
    check_for_proposer_slashing ⟨10, 1⟩ [] = .ok ⟨0, .EmptyHistory⟩ ∧
    check_for_proposer_slashing ⟨10, 2⟩ [] = .ok ⟨0, .EmptyHistory⟩ ∧
    check_for_proposer_slashing ⟨10, 2⟩ [SignedBlock.ofHeader ⟨10, 1⟩] =
      .error (.InvalidBlock .DoubleBlockProposal) :=
  ⟨rfl, rfl, rfl⟩

/-- C9: `empty` on a path whose database already contains rows succeeds and
returns a store whose in-memory History Index is empty while the previously
recorded rows remain in the table; its slashing checks are therefore
adjudicated against an empty history (identical to a fresh store's check),
until the path is reopened with `open`, which loads the persisted rows. -/
theorem c9_empty_on_existing_db_ignores_history :
    (∀ (rows : List SignedBlock) (h : BeaconBlockHeader),
      (BlockHistoryInfo.emptyOn rows).data = [] ∧
      (BlockHistoryInfo.emptyOn rows).conn = rows ∧
      (BlockHistoryInfo.emptyOn rows).check_slashing h =
        BlockHistoryInfo.fresh.check_slashing h ∧
      (BlockHistoryInfo.openStore rows).data = load_data_blocks rows) ∧
    (∀ (rows : List SignedAttestation) (a : AttestationData),
      (AttestationHistoryInfo.emptyOn rows).data = [] ∧
      (AttestationHistoryInfo.emptyOn rows).conn = rows ∧
      (AttestationHistoryInfo.emptyOn rows).check_slashing a =
        AttestationHistoryInfo.fresh.check_slashing a ∧
      (AttestationHistoryInfo.openStore rows).data =
        load_data_attestations rows) :=
  ⟨fun _ _ => ⟨rfl, rfl, rfl, rfl⟩, fun _ _ => ⟨rfl, rfl, rfl, rfl⟩⟩

/-- C5: when the rule check accepts a candidate with reason `EmptyHistory`
or `Valid` but the database INSERT fails, `update_if_valid` returns the
storage error and leaves the in-memory History Index (and the database)
completely unchanged; when the INSERT succeeds, and only then, the record
is spliced into memory at the accepted index. Stated for both store
kinds. -/
theorem c5_memory_spliced_only_after_db_insert :
    (∀ (s : BlockHistoryInfo) (h : BeaconBlockHeader) (i : Nat)
        (reason : ValidData),
      s.check_slashing h = .ok ⟨i, reason⟩ → reason ≠ .SameVote →
        (∀ e, dbInsertBlock s.conn (SignedBlock.ofHeader h) = .error e →
          s.update_if_valid h = (.error (.SQLError e), s)) ∧
        (∀ conn2, dbInsertBlock s.conn (SignedBlock.ofHeader h) = .ok conn2 →
          s.update_if_valid h =
            (.ok (), ⟨conn2, s.data.insertIdx i (SignedBlock.ofHeader h)⟩))) ∧
    (∀ (s : AttestationHistoryInfo) (a : AttestationData) (i : Nat)
        (reason : ValidData),
      s.check_slashing a = .ok ⟨i, reason⟩ → reason ≠ .SameVote →
        (∀ e, dbInsertAttestation s.conn (SignedAttestation.ofData a) =
            .error e →
          s.update_if_valid a = (.error (.SQLError e), s)) ∧
        (∀ conn2, dbInsertAttestation s.conn (SignedAttestation.ofData a) =
            .ok conn2 →
          s.update_if_valid a =
            (.ok (),
              ⟨conn2, s.data.insertIdx i (SignedAttestation.ofData a)⟩))) := by
  constructor
  · intro s h i reason hcheck hreason
    constructor
    · intro e he
      unfold BlockHistoryInfo.update_if_valid BlockHistoryInfo.insert
      rw [hcheck]
      cases reason with
      | SameVote => exact absurd rfl hreason
      | EmptyHistory =>
        dsimp only
        rw [he]
      | Valid =>
        dsimp only
        rw [he]
    · intro conn2 hc2
      unfold BlockHistoryInfo.update_if_valid BlockHistoryInfo.insert
      rw [hcheck]
      cases reason with
      | SameVote => exact absurd rfl hreason
      | EmptyHistory =>
        dsimp only
        rw [hc2]
      | Valid =>
        dsimp only
        rw [hc2]
  · intro s a i reason hcheck hreason
    constructor
    · intro e he
      unfold AttestationHistoryInfo.update_if_valid AttestationHistoryInfo.insert
      rw [hcheck]
      cases reason with
      | SameVote => exact absurd rfl hreason
      | EmptyHistory =>
        dsimp only
        rw [he]
      | Valid =>
        dsimp only
        rw [he]
    · intro conn2 hc2
      unfold AttestationHistoryInfo.update_if_valid AttestationHistoryInfo.insert
      rw [hcheck]
      cases reason with
      | SameVote => exact absurd rfl hreason
      | EmptyHistory =>
        dsimp only
        rw [hc2]
      | Valid =>
        dsimp only
        rw [hc2]

/-- C5 witness: a store whose table already holds a slot-10 row but whose
in-memory history is empty (as `empty` on an existing path produces): the
check accepts the slot-10 candidate against the empty memory, the INSERT
hits the unique index, and the call returns the storage error with the
store unchanged. -/
theorem c5_witness :
    BlockHistoryInfo.update_if_valid ⟨[⟨10, 5⟩], []⟩ ⟨10, 6⟩ =
      (.error (.SQLError .UniqueViolation), ⟨[⟨10, 5⟩], []⟩) :=
  (c5_memory_spliced_only_after_db_insert.1 ⟨[⟨10, 5⟩], []⟩ ⟨10, 6⟩ 0
      .EmptyHistory rfl (by decide)).1 .UniqueViolation rfl

/-- C7: a candidate rejected as slashable changes neither the in-memory
History Index nor the database, and submitting the same candidate again
against the unchanged store yields the same rejection kind. Stated for both
store kinds. -/
theorem c7_rejection_changes_nothing_and_repeats :
    (∀ (s : BlockHistoryInfo) (h : BeaconBlockHeader) (k : NotSafe),
      (s.update_if_valid h).1 = .error k → k.slashableKind = true →
        (s.update_if_valid h).2 = s ∧
        ((s.update_if_valid h).2.update_if_valid h).1 = .error k) ∧
    (∀ (s : AttestationHistoryInfo) (a : AttestationData) (k : NotSafe),
      (s.update_if_valid a).1 = .error k → k.slashableKind = true →
        (s.update_if_valid a).2 = s ∧
        ((s.update_if_valid a).2.update_if_valid a).1 = .error k) := by
  constructor
  · intro s h k herr hk
    cases hc : s.check_slashing h with
    | error k2 =>
      have hupd : s.update_if_valid h = (.error k2, s) := by
        unfold BlockHistoryInfo.update_if_valid
        rw [hc]
      have h2 : (s.update_if_valid h).2 = s := by rw [hupd]
      rw [hupd] at herr
      obtain rfl : k2 = k := by injection herr
      refine ⟨h2, ?_⟩
      rw [h2, hupd]
    | ok safe =>
      obtain ⟨i, reason⟩ := safe
      cases reason with
      | SameVote =>
        have hupd : s.update_if_valid h = (.ok (), s) := by
          unfold BlockHistoryInfo.update_if_valid
          rw [hc]
        rw [hupd] at herr
        exact absurd herr (by simp)
      | EmptyHistory =>
        cases hdb : dbInsertBlock s.conn (SignedBlock.ofHeader h) with
        | error e =>
          have hupd : s.update_if_valid h = (.error (.SQLError e), s) := by
            unfold BlockHistoryInfo.update_if_valid BlockHistoryInfo.insert
            rw [hc]
            dsimp only
            rw [hdb]
          rw [hupd] at herr
          obtain rfl : NotSafe.SQLError e = k := by injection herr
          exact absurd hk (by simp [NotSafe.slashableKind])
        | ok conn2 =>
          have hupd : s.update_if_valid h =
              (.ok (), ⟨conn2, s.data.insertIdx i (SignedBlock.ofHeader h)⟩) := by
            unfold BlockHistoryInfo.update_if_valid BlockHistoryInfo.insert
            rw [hc]
            dsimp only
            rw [hdb]
          rw [hupd] at herr
          exact absurd herr (by simp)
      | Valid =>
        cases hdb : dbInsertBlock s.conn (SignedBlock.ofHeader h) with
        | error e =>
          have hupd : s.update_if_valid h = (.error (.SQLError e), s) := by
            unfold BlockHistoryInfo.update_if_valid BlockHistoryInfo.insert
            rw [hc]
            dsimp only
            rw [hdb]
          rw [hupd] at herr
          obtain rfl : NotSafe.SQLError e = k := by injection herr
          exact absurd hk (by simp [NotSafe.slashableKind])
        | ok conn2 =>
          have hupd : s.update_if_valid h =
              (.ok (), ⟨conn2, s.data.insertIdx i (SignedBlock.ofHeader h)⟩) := by
            unfold BlockHistoryInfo.update_if_valid BlockHistoryInfo.insert
            rw [hc]
            dsimp only
            rw [hdb]
          rw [hupd] at herr
          exact absurd herr (by simp)
  · intro s a k herr hk
    cases hc : s.check_slashing a with
    | error k2 =>
      have hupd : s.update_if_valid a = (.error k2, s) := by
        unfold AttestationHistoryInfo.update_if_valid
        rw [hc]
      have h2 : (s.update_if_valid a).2 = s := by rw [hupd]
      rw [hupd] at herr
      obtain rfl : k2 = k := by injection herr
      refine ⟨h2, ?_⟩
      rw [h2, hupd]
    | ok safe =>
      obtain ⟨i, reason⟩ := safe
      cases reason with
      | SameVote =>
        have hupd : s.update_if_valid a = (.ok (), s) := by
          unfold AttestationHistoryInfo.update_if_valid
          rw [hc]
        rw [hupd] at herr
        exact absurd herr (by simp)
      | EmptyHistory =>
        cases hdb : dbInsertAttestation s.conn (SignedAttestation.ofData a) with
        | error e =>
          have hupd : s.update_if_valid a = (.error (.SQLError e), s) := by
            unfold AttestationHistoryInfo.update_if_valid
              AttestationHistoryInfo.insert
            rw [hc]
            dsimp only
            rw [hdb]
          rw [hupd] at herr
          obtain rfl : NotSafe.SQLError e = k := by injection herr
          exact absurd hk (by simp [NotSafe.slashableKind])
        | ok conn2 =>
          have hupd : s.update_if_valid a =
              (.ok (),
                ⟨conn2, s.data.insertIdx i (SignedAttestation.ofData a)⟩) := by
            unfold AttestationHistoryInfo.update_if_valid
              AttestationHistoryInfo.insert
            rw [hc]
            dsimp only
            rw [hdb]
          rw [hupd] at herr
          exact absurd herr (by simp)
      | Valid =>
        cases hdb : dbInsertAttestation s.conn (SignedAttestation.ofData a) with
        | error e =>
          have hupd : s.update_if_valid a = (.error (.SQLError e), s) := by
            unfold AttestationHistoryInfo.update_if_valid
              AttestationHistoryInfo.insert
            rw [hc]
            dsimp only
            rw [hdb]
          rw [hupd] at herr
          obtain rfl : NotSafe.SQLError e = k := by injection herr
          exact absurd hk (by simp [NotSafe.slashableKind])
        | ok conn2 =>
          have hupd : s.update_if_valid a =
              (.ok (),
                ⟨conn2, s.data.insertIdx i (SignedAttestation.ofData a)⟩) := by
            unfold AttestationHistoryInfo.update_if_valid
              AttestationHistoryInfo.insert
            rw [hc]
            dsimp only
            rw [hdb]
          rw [hupd] at herr
          exact absurd herr (by simp)

/-- C7 witness: spec scenario B2 — a store holding slots 5 and 7 rejects a
slot-6 candidate as `BlockSlotTooEarly`; the store is unchanged and the
resubmission is rejected with the same kind. -/
theorem c7_witness :
    (BlockHistoryInfo.update_if_valid ⟨[⟨5, 1⟩, ⟨7, 2⟩], [⟨5, 1⟩, ⟨7, 2⟩]⟩
        ⟨6, 3⟩).2 = ⟨[⟨5, 1⟩, ⟨7, 2⟩], [⟨5, 1⟩, ⟨7, 2⟩]⟩ ∧
    ((BlockHistoryInfo.update_if_valid ⟨[⟨5, 1⟩, ⟨7, 2⟩], [⟨5, 1⟩, ⟨7, 2⟩]⟩
        ⟨6, 3⟩).2.update_if_valid ⟨6, 3⟩).1 =
      .error (.InvalidBlock .BlockSlotTooEarly) :=
  c7_rejection_changes_nothing_and_repeats.1
    ⟨[⟨5, 1⟩, ⟨7, 2⟩], [⟨5, 1⟩, ⟨7, 2⟩]⟩ ⟨6, 3⟩
    (.InvalidBlock .BlockSlotTooEarly) rfl rfl

theorem lastSatisfying_append_of_true {α : Type} (p : α → Bool) (l : List α)
    (a : α) (hp : p a = true) :
    lastSatisfying p (l ++ [a]) = some l.length := by
  induction l with
  | nil => simp [lastSatisfying, hp]
  | cons b t ih => simp [lastSatisfying, ih]

theorem check_for_proposer_slashing_append_self (h : BeaconBlockHeader)
    (l : List SignedBlock) :
    check_for_proposer_slashing h (l ++ [SignedBlock.ofHeader h]) =
      .ok ⟨l.length, .SameVote⟩ := by
  unfold check_for_proposer_slashing
  have hne : (l ++ [SignedBlock.ofHeader h]).isEmpty = false := by simp
  have hlast : (l ++ [SignedBlock.ofHeader h]).getD
      ((l ++ [SignedBlock.ofHeader h]).length - 1) default =
        SignedBlock.ofHeader h := by
    simp only [List.length_append, List.length_singleton, Nat.add_sub_cancel]
    rw [List.getD_append_right l [SignedBlock.ofHeader h] default l.length
      (le_refl _)]
    simp
  have hls : lastSatisfying (fun b => decide (b.slot ≤ h.slot))
      (l ++ [SignedBlock.ofHeader h]) = some l.length :=
    lastSatisfying_append_of_true _ l _ (by simp [SignedBlock.ofHeader])
  have hgd : (l ++ [SignedBlock.ofHeader h]).getD l.length default =
      SignedBlock.ofHeader h := by
    rw [List.getD_append_right l [SignedBlock.ofHeader h] default l.length
      (le_refl _)]
    simp
  rw [hne]
  simp only [Bool.false_eq_true, if_false, hlast, hls]
  rw [if_neg (by simp [SignedBlock.ofHeader])]
  rw [hgd]
  simp [SignedBlock.ofHeader]

theorem check_for_proposer_slashing_ok_inversion (h : BeaconBlockHeader)
    (H : List SignedBlock) (i : Nat) (reason : ValidData)
    (hc : check_for_proposer_slashing h H = .ok ⟨i, reason⟩) :
    (reason = .EmptyHistory ∧ H = [] ∧ i = 0) ∨
    (reason = .Valid ∧ i = H.length ∧
      (H.getD (H.length - 1) default).slot < h.slot) ∨
    (reason = .SameVote ∧ i < H.length ∧
      (H.getD i default).slot = h.slot ∧
      (H.getD i default).signing_root = h.canonical_root) := by
  unfold check_for_proposer_slashing at hc
  by_cases hE : H.isEmpty = true
  · rw [if_pos hE] at hc
    simp only [Except.ok.injEq, Safe.mk.injEq] at hc
    obtain ⟨rfl, rfl⟩ := hc
    exact Or.inl ⟨rfl, List.isEmpty_iff.mp hE, rfl⟩
  · rw [if_neg hE] at hc
    by_cases hLast : (H.getD (H.length - 1) default).slot < h.slot
    · rw [if_pos hLast] at hc
      simp only [Except.ok.injEq, Safe.mk.injEq] at hc
      obtain ⟨rfl, rfl⟩ := hc
      exact Or.inr (Or.inl ⟨rfl, rfl, hLast⟩)
    · rw [if_neg hLast] at hc
      cases hls : lastSatisfying (fun b => decide (b.slot ≤ h.slot)) H with
      | none =>
        rw [hls] at hc
        exact absurd hc (by simp)
      | some j =>
        rw [hls] at hc
        dsimp only at hc
        by_cases hslot : (H.getD j default).slot = h.slot
        · rw [if_pos hslot] at hc
          by_cases hroot : (H.getD j default).signing_root = h.canonical_root
          · rw [if_pos hroot] at hc
            simp only [Except.ok.injEq, Safe.mk.injEq] at hc
            obtain ⟨rfl, rfl⟩ := hc
            exact Or.inr (Or.inr
              ⟨rfl, (lastSatisfying_bounds _ H j hls).1, hslot, hroot⟩)
          · rw [if_neg hroot] at hc
            exact absurd hc (by simp)
        · rw [if_neg hslot] at hc
          exact absurd hc (by simp)

theorem check_for_attester_slashing_ok_inversion (a : AttestationData)
    (H : List SignedAttestation) (i : Nat) (reason : ValidData)
    (hc : check_for_attester_slashing a H = .ok ⟨i, reason⟩) :
    (reason = .EmptyHistory ∧ H = [] ∧ i = 0) ∨
    reason = .SameVote ∨
    (reason = .Valid ∧
      i = (H.takeWhile (fun r =>
        decide (r.target_epoch < a.target_epoch))).length ∧
      (∀ x ∈ H, x.target_epoch ≠ a.target_epoch) ∧
      (∀ x ∈ H, ¬(x.source_epoch < a.source_epoch ∧
        a.target_epoch < x.target_epoch)) ∧
      (∀ x ∈ H, ¬(a.source_epoch < x.source_epoch ∧
        x.target_epoch < a.target_epoch))) := by
  unfold check_for_attester_slashing at hc
  by_cases hE : H.isEmpty = true
  · rw [if_pos hE] at hc
    simp only [Except.ok.injEq, Safe.mk.injEq] at hc
    obtain ⟨rfl, rfl⟩ := hc
    exact Or.inl ⟨rfl, List.isEmpty_iff.mp hE, rfl⟩
  · rw [if_neg hE] at hc
    cases hfi : H.findIdx? (fun r =>
        decide (r.target_epoch = a.target_epoch) &&
        decide (r.signing_root = a.tree_hash_root)) with
    | some j =>
      rw [hfi] at hc
      simp only [Except.ok.injEq, Safe.mk.injEq] at hc
      obtain ⟨rfl, rfl⟩ := hc
      exact Or.inr (Or.inl rfl)
    | none =>
      rw [hfi] at hc
      dsimp only at hc
      by_cases hd : H.any (fun r =>
          decide (r.target_epoch = a.target_epoch) &&
          decide (¬ r.signing_root = a.tree_hash_root)) = true
      · rw [if_pos hd] at hc
        exact absurd hc (by simp)
      · rw [if_neg hd] at hc
        by_cases hs : H.any (fun r =>
            decide (r.source_epoch < a.source_epoch) &&
            decide (a.target_epoch < r.target_epoch)) = true
        · rw [if_pos hs] at hc
          exact absurd hc (by simp)
        · rw [if_neg hs] at hc
          by_cases hs2 : H.any (fun r =>
              decide (a.source_epoch < r.source_epoch) &&
              decide (r.target_epoch < a.target_epoch)) = true
          · rw [if_pos hs2] at hc
            exact absurd hc (by simp)
          · rw [if_neg hs2] at hc
            simp only [Except.ok.injEq, Safe.mk.injEq] at hc
            obtain ⟨rfl, rfl⟩ := hc
            have hfiN := List.findIdx?_eq_none_iff.mp hfi
            refine Or.inr (Or.inr ⟨rfl, rfl, ?_, ?_, ?_⟩)
            · intro x hx heq
              by_cases hr : x.signing_root = a.tree_hash_root
              · have := hfiN x hx
                simp [heq, hr] at this
              · exact hd (List.any_eq_true.mpr ⟨x, hx, by simp [heq, hr]⟩)
            · intro x hx hcon
              exact hs (List.any_eq_true.mpr
                ⟨x, hx, by simp [hcon.1, hcon.2]⟩)
            · intro x hx hcon
              exact hs2 (List.any_eq_true.mpr
                ⟨x, hx, by simp [hcon.1, hcon.2]⟩)

theorem attester_check_member_same_vote (a : AttestationData)
    (l : List SignedAttestation) (hmem : SignedAttestation.ofData a ∈ l) :
    ∃ j, check_for_attester_slashing a l = .ok ⟨j, .SameVote⟩ := by
  have hne : l.isEmpty = false := by
    cases l with
    | nil => simp at hmem
    | cons b t => simp
  have hexB : ∃ x ∈ l, (fun r : SignedAttestation =>
      decide (r.target_epoch = a.target_epoch) &&
      decide (r.signing_root = a.tree_hash_root)) x = true :=
    ⟨_, hmem, by simp [SignedAttestation.ofData]⟩
  have hfi := List.findIdx?_eq_some_of_exists hexB
  refine ⟨List.findIdx (fun r : SignedAttestation =>
    decide (r.target_epoch = a.target_epoch) &&
    decide (r.signing_root = a.tree_hash_root)) l, ?_⟩
  unfold check_for_attester_slashing
  rw [hne]
  simp only [Bool.false_eq_true, if_false, hfi]

/-- C6 counterexample: submitting the identical block candidate twice to a
fresh store returns the very same value `Ok(())` both times —
`update_if_valid` gives the caller nothing that distinguishes the first
recording (`Recorded`) from the idempotent re-submission (`AlreadySigned`),
so the two verdicts are not distinguishable as the claim states. -/
theorem c6_counterexample :
    (BlockHistoryInfo.fresh.update_if_valid ⟨1, 7⟩).1 =
      ((BlockHistoryInfo.fresh.update_if_valid ⟨1, 7⟩).2.update_if_valid
        ⟨1, 7⟩).1 ∧
    (BlockHistoryInfo.fresh.update_if_valid ⟨1, 7⟩).1 = .ok () :=
  ⟨rfl, rfl⟩

/-- C6 amended: `update_if_valid` is idempotent on identical input — if the
first submission succeeds, resubmitting the identical candidate succeeds
again and changes neither the in-memory history nor the database; but the
two outcomes carry the same value `Ok(())` (internally the second run
classifies the candidate as `SameVote`), so the caller cannot tell
`Recorded` from `AlreadySigned`. Stated for both store kinds. -/
theorem c6_identical_resubmission_is_silent_noop :
    (∀ (s : BlockHistoryInfo) (h : BeaconBlockHeader),
      (s.update_if_valid h).1 = .ok () →
        (s.update_if_valid h).2.update_if_valid h =
          (.ok (), (s.update_if_valid h).2)) ∧
    (∀ (s : AttestationHistoryInfo) (a : AttestationData),
      (s.update_if_valid a).1 = .ok () →
        (s.update_if_valid a).2.update_if_valid a =
          (.ok (), (s.update_if_valid a).2)) := by
  constructor
  · intro s h hfirst
    cases hc : s.check_slashing h with
    | error k =>
      have hupd : s.update_if_valid h = (.error k, s) := by
        unfold BlockHistoryInfo.update_if_valid
        rw [hc]
      rw [hupd] at hfirst
      exact absurd hfirst (by simp)
    | ok safe =>
      obtain ⟨i, reason⟩ := safe
      have hc' : check_for_proposer_slashing h s.data = .ok ⟨i, reason⟩ := hc
      rcases check_for_proposer_slashing_ok_inversion h s.data i reason hc' with
        ⟨rfl, hdata, rfl⟩ | ⟨rfl, rfl, hlt⟩ | ⟨rfl, hi, hslot, hroot⟩
      · cases hdb : dbInsertBlock s.conn (SignedBlock.ofHeader h) with
        | error e =>
          have hupd : s.update_if_valid h = (.error (.SQLError e), s) := by
            unfold BlockHistoryInfo.update_if_valid BlockHistoryInfo.insert
            rw [hc]
            dsimp only
            rw [hdb]
          rw [hupd] at hfirst
          exact absurd hfirst (by simp)
        | ok conn2 =>
          have hupd : s.update_if_valid h =
              (.ok (), ⟨conn2,
                s.data.insertIdx 0 (SignedBlock.ofHeader h)⟩) := by
            unfold BlockHistoryInfo.update_if_valid BlockHistoryInfo.insert
            rw [hc]
            dsimp only
            rw [hdb]
          have hdata2 : s.data.insertIdx 0 (SignedBlock.ofHeader h) =
              [] ++ [SignedBlock.ofHeader h] := by
            rw [hdata]
            simp
          have hcheck2 : check_for_proposer_slashing h
              (s.data.insertIdx 0 (SignedBlock.ofHeader h)) =
                .ok ⟨([] : List SignedBlock).length, .SameVote⟩ := by
            rw [hdata2]
            exact check_for_proposer_slashing_append_self h []
          rw [hupd]
          dsimp only
          unfold BlockHistoryInfo.update_if_valid
          rw [show BlockHistoryInfo.check_slashing
              ⟨conn2, s.data.insertIdx 0 (SignedBlock.ofHeader h)⟩ h =
              check_for_proposer_slashing h
                (s.data.insertIdx 0 (SignedBlock.ofHeader h)) from rfl]
          rw [hcheck2]
      · cases hdb : dbInsertBlock s.conn (SignedBlock.ofHeader h) with
        | error e =>
          have hupd : s.update_if_valid h = (.error (.SQLError e), s) := by
            unfold BlockHistoryInfo.update_if_valid BlockHistoryInfo.insert
            rw [hc]
            dsimp only
            rw [hdb]
          rw [hupd] at hfirst
          exact absurd hfirst (by simp)
        | ok conn2 =>
          have hupd : s.update_if_valid h =
              (.ok (), ⟨conn2,
                s.data.insertIdx s.data.length (SignedBlock.ofHeader h)⟩) := by
            unfold BlockHistoryInfo.update_if_valid BlockHistoryInfo.insert
            rw [hc]
            dsimp only
            rw [hdb]
          have hdata2 : s.data.insertIdx s.data.length
              (SignedBlock.ofHeader h) = s.data ++ [SignedBlock.ofHeader h] :=
            List.insertIdx_length_self s.data (SignedBlock.ofHeader h)
          have hcheck2 : check_for_proposer_slashing h
              (s.data.insertIdx s.data.length (SignedBlock.ofHeader h)) =
                .ok ⟨s.data.length, .SameVote⟩ := by
            rw [hdata2]
            exact check_for_proposer_slashing_append_self h s.data
          rw [hupd]
          dsimp only
          unfold BlockHistoryInfo.update_if_valid
          rw [show BlockHistoryInfo.check_slashing
              ⟨conn2, s.data.insertIdx s.data.length (SignedBlock.ofHeader h)⟩
                h =
              check_for_proposer_slashing h
                (s.data.insertIdx s.data.length (SignedBlock.ofHeader h))
              from rfl]
          rw [hcheck2]
      · have hupd : s.update_if_valid h = (.ok (), s) := by
          unfold BlockHistoryInfo.update_if_valid
          rw [hc]
        rw [hupd]
        dsimp only
        exact hupd
  · intro s a hfirst
    cases hc : s.check_slashing a with
    | error k =>
      have hupd : s.update_if_valid a = (.error k, s) := by
        unfold AttestationHistoryInfo.update_if_valid
        rw [hc]
      rw [hupd] at hfirst
      exact absurd hfirst (by simp)
    | ok safe =>
      obtain ⟨i, reason⟩ := safe
      have hc' : check_for_attester_slashing a s.data = .ok ⟨i, reason⟩ := hc
      rcases check_for_attester_slashing_ok_inversion a s.data i reason hc' with
        ⟨rfl, hdata, rfl⟩ | rfl | ⟨rfl, hi, htar, hsur, hsur2⟩
      · cases hdb : dbInsertAttestation s.conn (SignedAttestation.ofData a) with
        | error e =>
          have hupd : s.update_if_valid a = (.error (.SQLError e), s) := by
            unfold AttestationHistoryInfo.update_if_valid
              AttestationHistoryInfo.insert
            rw [hc]
            dsimp only
            rw [hdb]
          rw [hupd] at hfirst
          exact absurd hfirst (by simp)
        | ok conn2 =>
          have hupd : s.update_if_valid a =
              (.ok (), ⟨conn2,
                s.data.insertIdx 0 (SignedAttestation.ofData a)⟩) := by
            unfold AttestationHistoryInfo.update_if_valid
              AttestationHistoryInfo.insert
            rw [hc]
            dsimp only
            rw [hdb]
          have hmem : SignedAttestation.ofData a ∈
              s.data.insertIdx 0 (SignedAttestation.ofData a) := by
            rw [hdata]
            simp
          obtain ⟨j, hcheck2⟩ := attester_check_member_same_vote a _ hmem
          rw [hupd]
          dsimp only
          unfold AttestationHistoryInfo.update_if_valid
          rw [show AttestationHistoryInfo.check_slashing
              ⟨conn2, s.data.insertIdx 0 (SignedAttestation.ofData a)⟩ a =
              check_for_attester_slashing a
                (s.data.insertIdx 0 (SignedAttestation.ofData a)) from rfl]
          rw [hcheck2]
      · have hupd : s.update_if_valid a = (.ok (), s) := by
          unfold AttestationHistoryInfo.update_if_valid
          rw [hc]
        rw [hupd]
        dsimp only
        exact hupd
      · cases hdb : dbInsertAttestation s.conn (SignedAttestation.ofData a) with
        | error e =>
          have hupd : s.update_if_valid a = (.error (.SQLError e), s) := by
            unfold AttestationHistoryInfo.update_if_valid
              AttestationHistoryInfo.insert
            rw [hc]
            dsimp only
            rw [hdb]
          rw [hupd] at hfirst
          exact absurd hfirst (by simp)
        | ok conn2 =>
          have hupd : s.update_if_valid a =
              (.ok (), ⟨conn2, s.data.insertIdx
                (s.data.takeWhile (fun r =>
                  decide (r.target_epoch < a.target_epoch))).length
                (SignedAttestation.ofData a)⟩) := by
            unfold AttestationHistoryInfo.update_if_valid
              AttestationHistoryInfo.insert
            rw [hc]
            dsimp only
            rw [hdb, hi]
          have hmem : SignedAttestation.ofData a ∈
              s.data.insertIdx
                (s.data.takeWhile (fun r =>
                  decide (r.target_epoch < a.target_epoch))).length
                (SignedAttestation.ofData a) :=
            (List.mem_insertIdx
              ((List.takeWhile_sublist _).length_le)).mpr (Or.inl rfl)
          obtain ⟨j, hcheck2⟩ := attester_check_member_same_vote a _ hmem
          rw [hupd]
          dsimp only
          unfold AttestationHistoryInfo.update_if_valid
          rw [show AttestationHistoryInfo.check_slashing
              ⟨conn2, s.data.insertIdx
                (s.data.takeWhile (fun r =>
                  decide (r.target_epoch < a.target_epoch))).length
                (SignedAttestation.ofData a)⟩ a =
              check_for_attester_slashing a
                (s.data.insertIdx
                  (s.data.takeWhile (fun r =>
                    decide (r.target_epoch < a.target_epoch))).length
                  (SignedAttestation.ofData a)) from rfl]
          rw [hcheck2]

/-- C6 witness: the amended idempotence applied at the concrete fresh store
and block candidate of the counterexample. -/
theorem c6_witness :
    (BlockHistoryInfo.fresh.update_if_valid ⟨1, 7⟩).2.update_if_valid ⟨1, 7⟩ =
      (.ok (), (BlockHistoryInfo.fresh.update_if_valid ⟨1, 7⟩).2) :=
  c6_identical_resubmission_is_silent_noop.1 BlockHistoryInfo.fresh ⟨1, 7⟩ rfl

theorem pairwise_slot_le_last :
    ∀ l : List SignedBlock,
      List.Pairwise (fun r s : SignedBlock => r.slot < s.slot) l →
      ∀ a ∈ l, a.slot ≤ (l.getD (l.length - 1) default).slot := by
  intro l
  induction l with
  | nil =>
    intro _ a ha
    simp at ha
  | cons b t ih =>
    intro hpw a ha
    cases t with
    | nil =>
      rcases List.mem_cons.mp ha with rfl | hmem
      · simp [List.getD]
      · simp at hmem
    | cons c t2 =>
      have hlast : ((b :: c :: t2).getD ((b :: c :: t2).length - 1) default) =
          ((c :: t2).getD ((c :: t2).length - 1) default) := by
        simp [List.getD]
      have hlastmem : ((c :: t2).getD ((c :: t2).length - 1) default) ∈
          (c :: t2) := by
        rw [List.getD_eq_getElem (c :: t2) default (by simp)]
        exact List.getElem_mem _
      rcases List.mem_cons.mp ha with rfl | hmem
      · rw [hlast]
        exact le_of_lt (List.rel_of_pairwise_cons hpw hlastmem)
      · rw [hlast]
        exact ih hpw.of_cons a hmem

theorem block_update_preserves_sorted (s : BlockHistoryInfo)
    (h : BeaconBlockHeader)
    (hpw : List.Pairwise (fun r t : SignedBlock => r.slot < t.slot) s.data) :
    List.Pairwise (fun r t : SignedBlock => r.slot < t.slot)
      ((s.update_if_valid h).2).data := by
  cases hc : s.check_slashing h with
  | error k =>
    have hupd : s.update_if_valid h = (.error k, s) := by
      unfold BlockHistoryInfo.update_if_valid
      rw [hc]
    rw [hupd]
    exact hpw
  | ok safe =>
    obtain ⟨i, reason⟩ := safe
    have hc' : check_for_proposer_slashing h s.data = .ok ⟨i, reason⟩ := hc
    rcases check_for_proposer_slashing_ok_inversion h s.data i reason hc' with
      ⟨rfl, hdata, rfl⟩ | ⟨rfl, rfl, hlt⟩ | ⟨rfl, hi, hslot, hroot⟩
    · cases hdb : dbInsertBlock s.conn (SignedBlock.ofHeader h) with
      | error e =>
        have hupd : s.update_if_valid h = (.error (.SQLError e), s) := by
          unfold BlockHistoryInfo.update_if_valid BlockHistoryInfo.insert
          rw [hc]
          dsimp only
          rw [hdb]
        rw [hupd]
        exact hpw
      | ok conn2 =>
        have hupd : s.update_if_valid h =
            (.ok (), ⟨conn2, s.data.insertIdx 0 (SignedBlock.ofHeader h)⟩) := by
          unfold BlockHistoryInfo.update_if_valid BlockHistoryInfo.insert
          rw [hc]
          dsimp only
          rw [hdb]
        rw [hupd]
        rw [show (Except.ok (),
            (⟨conn2, s.data.insertIdx 0 (SignedBlock.ofHeader h)⟩ :
              BlockHistoryInfo)).2.data =
          s.data.insertIdx 0 (SignedBlock.ofHeader h) from rfl]
        rw [hdata]
        simp
    · cases hdb : dbInsertBlock s.conn (SignedBlock.ofHeader h) with
      | error e =>
        have hupd : s.update_if_valid h = (.error (.SQLError e), s) := by
          unfold BlockHistoryInfo.update_if_valid BlockHistoryInfo.insert
          rw [hc]
          dsimp only
          rw [hdb]
        rw [hupd]
        exact hpw
      | ok conn2 =>
        have hupd : s.update_if_valid h =
            (.ok (), ⟨conn2,
              s.data.insertIdx s.data.length (SignedBlock.ofHeader h)⟩) := by
          unfold BlockHistoryInfo.update_if_valid BlockHistoryInfo.insert
          rw [hc]
          dsimp only
          rw [hdb]
        rw [hupd]
        rw [show (Except.ok (),
            (⟨conn2, s.data.insertIdx s.data.length (SignedBlock.ofHeader h)⟩ :
              BlockHistoryInfo)).2.data =
          s.data.insertIdx s.data.length (SignedBlock.ofHeader h) from rfl]
        rw [List.insertIdx_length_self]
        rw [List.pairwise_append]
        refine ⟨hpw, by simp, ?_⟩
        intro x hx y hy
        rcases List.mem_singleton.mp hy with rfl
        have hle : x.slot ≤ (s.data.getD (s.data.length - 1) default).slot :=
          pairwise_slot_le_last s.data hpw x hx
        calc x.slot ≤ (s.data.getD (s.data.length - 1) default).slot := hle
          _ < h.slot := hlt
    · have hupd : s.update_if_valid h = (.ok (), s) := by
        unfold BlockHistoryInfo.update_if_valid
        rw [hc]
      rw [hupd]
      exact hpw

theorem insertIdx_takeWhile_length {α : Type} (p : α → Bool) (a : α)
    (l : List α) :
    l.insertIdx (l.takeWhile p).length a =
      l.takeWhile p ++ a :: l.dropWhile p := by
  induction l with
  | nil => simp
  | cons b t ih =>
    cases hp : p b with
    | true =>
      rw [List.takeWhile_cons, List.dropWhile_cons]
      simp only [hp, if_true]
      rw [List.length_cons, List.insertIdx_succ_cons, ih]
      simp
    | false =>
      rw [List.takeWhile_cons, List.dropWhile_cons]
      simp only [hp, Bool.false_eq_true, if_false]
      simp

theorem insert_preserves_conflict_free (a : AttestationData)
    (l : List SignedAttestation)
    (hpw : List.Pairwise conflictFree l)
    (htar : ∀ x ∈ l, x.target_epoch ≠ a.target_epoch)
    (hsur : ∀ x ∈ l, ¬(x.source_epoch < a.source_epoch ∧
      a.target_epoch < x.target_epoch))
    (hsur2 : ∀ x ∈ l, ¬(a.source_epoch < x.source_epoch ∧
      x.target_epoch < a.target_epoch)) :
    List.Pairwise conflictFree
      (l.insertIdx (l.takeWhile (fun r =>
          decide (r.target_epoch < a.target_epoch))).length
        (SignedAttestation.ofData a)) := by
  rw [insertIdx_takeWhile_length]
  have htw_dw := List.takeWhile_append_dropWhile
    (fun r : SignedAttestation => decide (r.target_epoch < a.target_epoch)) l
  have hpw2 : List.Pairwise conflictFree
      (l.takeWhile (fun r : SignedAttestation =>
        decide (r.target_epoch < a.target_epoch)) ++
       l.dropWhile (fun r : SignedAttestation =>
        decide (r.target_epoch < a.target_epoch))) := by
    rw [htw_dw]
    exact hpw
  rw [List.pairwise_append] at hpw2
  obtain ⟨hpw_tw, hpw_dw, hcross⟩ := hpw2
  have hmemtw : ∀ x ∈ l.takeWhile (fun r : SignedAttestation =>
      decide (r.target_epoch < a.target_epoch)),
      x.target_epoch < a.target_epoch := by
    intro x hx
    have := List.mem_takeWhile_imp hx
    simpa using this
  have hmemdw : ∀ x ∈ l.dropWhile (fun r : SignedAttestation =>
      decide (r.target_epoch < a.target_epoch)),
      a.target_epoch < x.target_epoch := by
    intro x hx
    cases hdw : l.dropWhile (fun r : SignedAttestation =>
        decide (r.target_epoch < a.target_epoch)) with
    | nil =>
      rw [hdw] at hx
      simp at hx
    | cons d0 dt =>
      have hd0 : (fun r : SignedAttestation =>
          decide (r.target_epoch < a.target_epoch)) d0 = false := by
        have hne : l.dropWhile (fun r : SignedAttestation =>
            decide (r.target_epoch < a.target_epoch)) ≠ [] := by
          rw [hdw]
          simp
        have := List.head_dropWhile_not
          (fun r : SignedAttestation =>
            decide (r.target_epoch < a.target_epoch)) l hne
        rwa [show (l.dropWhile (fun r : SignedAttestation =>
            decide (r.target_epoch < a.target_epoch))).head hne = d0 by
          simp [hdw]] at this
      have hd0le : a.target_epoch ≤ d0.target_epoch := by
        have := of_decide_eq_false hd0
        omega
      have hd0mem : d0 ∈ l := by
        have : d0 ∈ l.dropWhile (fun r : SignedAttestation =>
            decide (r.target_epoch < a.target_epoch)) := by
          rw [hdw]
          simp
        exact (List.dropWhile_sublist _).subset this
      have hd0lt : a.target_epoch < d0.target_epoch :=
        lt_of_le_of_ne hd0le (fun he => htar d0 hd0mem he.symm)
      rw [hdw] at hx
      rcases List.mem_cons.mp hx with rfl | hmem
      · exact hd0lt
      · have hpw_dw2 : List.Pairwise conflictFree (d0 :: dt) := by
          rw [← hdw]
          exact hpw_dw
        have := List.rel_of_pairwise_cons hpw_dw2 hmem
        exact lt_trans hd0lt this.1
  have hmemtwl : ∀ x ∈ l.takeWhile (fun r : SignedAttestation =>
      decide (r.target_epoch < a.target_epoch)), x ∈ l :=
    fun x hx => (List.takeWhile_sublist _).subset hx
  have hmemdwl : ∀ x ∈ l.dropWhile (fun r : SignedAttestation =>
      decide (r.target_epoch < a.target_epoch)), x ∈ l :=
    fun x hx => (List.dropWhile_sublist _).subset hx
  rw [List.pairwise_append]
  refine ⟨hpw_tw, ?_, ?_⟩
  · rw [List.pairwise_cons]
    constructor
    · intro y hy
      refine ⟨hmemdw y hy, ?_, ?_⟩
      · exact hsur2 y (hmemdwl y hy)
      · exact hsur y (hmemdwl y hy)
    · exact hpw_dw
  · intro x hx y hy
    rcases List.mem_cons.mp hy with rfl | hmem
    · refine ⟨hmemtw x hx, ?_, ?_⟩
      · exact hsur x (hmemtwl x hx)
      · exact hsur2 x (hmemtwl x hx)
    · exact hcross x hx y hmem

theorem attestation_update_preserves_conflict_free
    (s : AttestationHistoryInfo) (a : AttestationData)
    (hpw : List.Pairwise conflictFree s.data) :
    List.Pairwise conflictFree ((s.update_if_valid a).2).data := by
  cases hc : s.check_slashing a with
  | error k =>
    have hupd : s.update_if_valid a = (.error k, s) := by
      unfold AttestationHistoryInfo.update_if_valid
      rw [hc]
    rw [hupd]
    exact hpw
  | ok safe =>
    obtain ⟨i, reason⟩ := safe
    have hc' : check_for_attester_slashing a s.data = .ok ⟨i, reason⟩ := hc
    rcases check_for_attester_slashing_ok_inversion a s.data i reason hc' with
      ⟨rfl, hdata, rfl⟩ | rfl | ⟨rfl, hi, htar, hsur, hsur2⟩
    · cases hdb : dbInsertAttestation s.conn (SignedAttestation.ofData a) with
      | error e =>
        have hupd : s.update_if_valid a = (.error (.SQLError e), s) := by
          unfold AttestationHistoryInfo.update_if_valid
            AttestationHistoryInfo.insert
          rw [hc]
          dsimp only
          rw [hdb]
        rw [hupd]
        exact hpw
      | ok conn2 =>
        have hupd : s.update_if_valid a =
            (.ok (), ⟨conn2,
              s.data.insertIdx 0 (SignedAttestation.ofData a)⟩) := by
          unfold AttestationHistoryInfo.update_if_valid
            AttestationHistoryInfo.insert
          rw [hc]
          dsimp only
          rw [hdb]
        rw [hupd]
        rw [show (Except.ok (),
            (⟨conn2, s.data.insertIdx 0 (SignedAttestation.ofData a)⟩ :
              AttestationHistoryInfo)).2.data =
          s.data.insertIdx 0 (SignedAttestation.ofData a) from rfl]
        rw [hdata]
        simp
    · have hupd : s.update_if_valid a = (.ok (), s) := by
        unfold AttestationHistoryInfo.update_if_valid
        rw [hc]
      rw [hupd]
      exact hpw
    · cases hdb : dbInsertAttestation s.conn (SignedAttestation.ofData a) with
      | error e =>
        have hupd : s.update_if_valid a = (.error (.SQLError e), s) := by
          unfold AttestationHistoryInfo.update_if_valid
            AttestationHistoryInfo.insert
          rw [hc]
          dsimp only
          rw [hdb]
        rw [hupd]
        exact hpw
      | ok conn2 =>
        have hupd : s.update_if_valid a =
            (.ok (), ⟨conn2, s.data.insertIdx
              (s.data.takeWhile (fun r =>
                decide (r.target_epoch < a.target_epoch))).length
              (SignedAttestation.ofData a)⟩) := by
          unfold AttestationHistoryInfo.update_if_valid
            AttestationHistoryInfo.insert
          rw [hc]
          dsimp only
          rw [hdb, hi]
        rw [hupd]
        exact insert_preserves_conflict_free a s.data hpw htar hsur hsur2

theorem run_foldl_block_invariant (ops : List BeaconBlockHeader) :
    ∀ s : BlockHistoryInfo,
      List.Pairwise (fun r t : SignedBlock => r.slot < t.slot) s.data →
      List.Pairwise (fun r t : SignedBlock => r.slot < t.slot)
        (ops.foldl (fun s h => (s.update_if_valid h).2) s).data := by
  induction ops with
  | nil => exact fun s hs => hs
  | cons op rest ih =>
    intro s hs
    exact ih _ (block_update_preserves_sorted s op hs)

theorem run_foldl_attestation_invariant (ops : List AttestationData) :
    ∀ s : AttestationHistoryInfo,
      List.Pairwise conflictFree s.data →
      List.Pairwise conflictFree
        (ops.foldl (fun s a => (s.update_if_valid a).2) s).data := by
  induction ops with
  | nil => exact fun s hs => hs
  | cons op rest ih =>
    intro s hs
    exact ih _ (attestation_update_preserves_conflict_free s op hs)

/-- C4: every history reachable through `update_if_valid` from a fresh store
is sorted strictly ascending by temporal key — slot for blocks, target epoch
for attestations — and, for attestations, no record of the history strictly
surrounds another; in particular no two records share a temporal key, so
none share one with differing signing roots. -/
theorem c4_reachable_histories_are_conflict_free :
    (∀ ops : List BeaconBlockHeader,
      List.Pairwise (fun r t : SignedBlock => r.slot < t.slot)
        (BlockHistoryInfo.run ops).data) ∧
    (∀ ops : List AttestationData,
      List.Pairwise conflictFree (AttestationHistoryInfo.run ops).data) :=
  ⟨fun ops => run_foldl_block_invariant ops BlockHistoryInfo.fresh
      (by simp [BlockHistoryInfo.fresh]),
    fun ops => run_foldl_attestation_invariant ops AttestationHistoryInfo.fresh
      (by simp [AttestationHistoryInfo.fresh])⟩

/-- C8: the final re-sort in `load_data` orders the loaded rows ascending by
the unsigned 64-bit temporal key for every stored contents, undoing the
signed i64 ordering the SQL delivers (a value at or above 2^63 sorts first
as an i64 but last as a u64, as the concrete evaluation shows); the
attestation loader also returns the full table (a permutation of the stored
rows). For blocks the "full table" half of the claim fails: the concrete
evaluation shows the stored slot-0 row is dropped by the stray `where slot`
filter. -/
theorem c8_load_resorts_by_unsigned_key :
    (∀ db : List SignedAttestation,
      List.Pairwise (fun r s : SignedAttestation =>
        r.target_epoch ≤ s.target_epoch) (load_data_attestations db) ∧
      (load_data_attestations db).Perm db) ∧
    (∀ db : List SignedBlock,
      List.Pairwise (fun r s : SignedBlock => r.slot ≤ s.slot)
        (load_data_blocks db)) ∧
    load_data_blocks [⟨2 ^ 63, 1⟩, ⟨1, 2⟩, ⟨0, 3⟩] = [⟨1, 2⟩, ⟨2 ^ 63, 1⟩] := by
  refine ⟨fun db => ⟨?_, ?_⟩, fun db => ?_, ?_⟩
  · exact List.sorted_insertionSort
      (fun a b : SignedAttestation => a.target_epoch ≤ b.target_epoch) _
  · exact (List.perm_insertionSort
      (fun a b : SignedAttestation => a.target_epoch ≤ b.target_epoch)
        _).trans
      (List.perm_insertionSort (fun a b : SignedAttestation =>
        i64OfU64 a.target_epoch ≤ i64OfU64 b.target_epoch) db)
  · exact List.sorted_insertionSort
      (fun a b : SignedBlock => a.slot ≤ b.slot) _
  · decide
